import Mathlib

/-!
Verification of the client-side encryption service of the repository
(`src/src/services/encryption.ts`).

Shallow embedding conventions:

* JS strings are modelled as lists of Unicode scalar values (`List Nat`
  of code points); byte buffers (`Uint8Array`, `Buffer`) are `List Nat`
  with every element `< 256`.
* `Buffer.from(s, "utf-8")` / `Buffer.toString("utf-8")` are modelled by a
  concrete UTF-8 encoder/decoder over code-point lists.
* `Buffer.toString("base64")` / `Buffer.from(s, "base64")` are modelled by
  a concrete base64 codec (RFC 4648 alphabet, `=` padding, non-alphabet
  characters ignored on decode, as Node's decoder does).
* `sha256` (from `@noble/hashes/sha256`) is modelled by a concrete,
  executable SHA-256 over byte lists.
* `argon2id` (from `@noble/hashes/argon2`, called with the fixed options
  `t = 2, m = 65536, p = 4, dkLen = 32`) and `chacha20poly1305` (from
  `@noble/ciphers/chacha`) are modelled abstractly as fields of a
  `CryptoPrims` structure: their cryptographic behaviour is the external
  library's contract, which theorems take as explicit hypotheses.
* `randomBytes` is modelled by an explicit entropy stream carried in the
  session state: each call consumes the next bytes of the stream.
* The module-level variable `sessionKey` is modelled by explicit state
  passing.  Because the source mutates `Uint8Array` buffers in place
  (`sessionKey.fill(0)`), the state also records, in `retired`, the final
  contents of each key buffer at the moment the module variable stopped
  referencing it: a buffer that was wiped is recorded as zeros, a buffer
  that was merely dropped is recorded unchanged.
-/

namespace EncryptionService

/-- A list of naturals is a byte buffer when every element is below 256. -/
def isBytes (l : List Nat) : Prop := ∀ b ∈ l, b < 256

instance (l : List Nat) : Decidable (isBytes l) := by
  unfold isBytes; infer_instance

/-! ## Base64 (Node `Buffer` semantics)

`base64Encode`/`base64Decode` in the source are
`Buffer.from(data).toString("base64")` and
`new Uint8Array(Buffer.from(data, "base64"))` (lines 21-22 of
`encryption.ts`).  Encoding produces the standard RFC 4648 alphabet with
`=` padding; decoding ignores characters outside the alphabet (including
the padding) and converts each group of 4 sextets to 3 bytes, a trailing
group of 3 sextets to 2 bytes and a trailing group of 2 sextets to 1
byte, as Node's lenient decoder does.  Text is a list of UTF-16 code
units / code points (all ASCII here). -/

/-- Index 0..63 of the base64 alphabet to its character code. -/
def sextetToChar (s : Nat) : Nat :=
  if s < 26 then 65 + s
  else if s < 52 then 97 + (s - 26)
  else if s < 62 then 48 + (s - 52)
  else if s = 62 then 43
  else 47

/-- Character code back to its alphabet index; `none` for non-alphabet
characters (these are skipped by the decoder, like Node's). -/
def charToSextet (c : Nat) : Option Nat :=
  if 65 ≤ c ∧ c ≤ 90 then some (c - 65)
  else if 97 ≤ c ∧ c ≤ 122 then some (c - 97 + 26)
  else if 48 ≤ c ∧ c ≤ 57 then some (c - 48 + 52)
  else if c = 43 then some 62
  else if c = 47 then some 63
  else none

/-- Base64-encode a byte list to a character-code list, 3 bytes → 4
characters, with `=` padding (code 61). -/
def base64Encode : List Nat → List Nat
  | b1 :: b2 :: b3 :: rest =>
    sextetToChar (b1 / 4) ::
    sextetToChar ((b1 % 4) * 16 + b2 / 16) ::
    sextetToChar ((b2 % 16) * 4 + b3 / 64) ::
    sextetToChar (b3 % 64) ::
    base64Encode rest
  | [b1, b2] =>
    [sextetToChar (b1 / 4),
     sextetToChar ((b1 % 4) * 16 + b2 / 16),
     sextetToChar ((b2 % 16) * 4),
     61]
  | [b1] =>
    [sextetToChar (b1 / 4),
     sextetToChar ((b1 % 4) * 16),
     61, 61]
  | [] => []

/-- Reassemble bytes from a list of sextets: 4 sextets → 3 bytes, with
lenient handling of a short trailing group. -/
def sextetsToBytes : List Nat → List Nat
  | s1 :: s2 :: s3 :: s4 :: rest =>
    (s1 * 4 + s2 / 16) ::
    ((s2 % 16) * 16 + s3 / 4) ::
    ((s3 % 4) * 64 + s4) ::
    sextetsToBytes rest
  | [s1, s2, s3] =>
    [s1 * 4 + s2 / 16, (s2 % 16) * 16 + s3 / 4]
  | [s1, s2] =>
    [s1 * 4 + s2 / 16]
  | _ => []

/-- Base64-decode a character-code list to a byte list, skipping
non-alphabet characters (so `=` padding is ignored), as Node does. -/
def base64Decode (text : List Nat) : List Nat :=
  sextetsToBytes (text.filterMap charToSextet)

/-! ## UTF-8

`Buffer.from(s, "utf-8")` encodes the string's Unicode scalar values with
standard UTF-8; `Buffer.from(bytes).toString("utf-8")` decodes, replacing
ill-formed sequences with U+FFFD (it never throws).  The strict decoder
below agrees with Node's on well-formed input, which is the only case the
theorems rely on; `utf8DecodeLossy` is the total version the service
actually calls. -/

/-- A valid Unicode scalar value: in range and not a surrogate. -/
def validScalar (c : Nat) : Prop :=
  c < 1114112 ∧ (c < 55296 ∨ 57344 ≤ c)

instance (c : Nat) : Decidable (validScalar c) := by
  unfold validScalar; infer_instance

/-- UTF-8 encoding of one code point. -/
def utf8EncodeChar (c : Nat) : List Nat :=
  if c < 128 then [c]
  else if c < 2048 then [192 + c / 64, 128 + c % 64]
  else if c < 65536 then [224 + c / 4096, 128 + c / 64 % 64, 128 + c % 64]
  else [240 + c / 262144, 128 + c / 4096 % 64, 128 + c / 64 % 64, 128 + c % 64]

/-- UTF-8 encoding of a code-point list. -/
def utf8Encode (cs : List Nat) : List Nat := cs.flatMap utf8EncodeChar

/-- Decode the continuation of a 2-byte sequence headed by `b1`. -/
def utf8Cont2 (b1 : Nat) : List Nat → Option (Nat × List Nat)
  | b2 :: rest =>
    if 128 ≤ b2 ∧ b2 < 192 then some ((b1 - 192) * 64 + (b2 - 128), rest)
    else none
  | [] => none

/-- Decode the continuation of a 3-byte sequence headed by `b1`. -/
def utf8Cont3 (b1 : Nat) : List Nat → Option (Nat × List Nat)
  | b2 :: b3 :: rest =>
    if (128 ≤ b2 ∧ b2 < 192) ∧ (128 ≤ b3 ∧ b3 < 192) then
      some ((b1 - 224) * 4096 + (b2 - 128) * 64 + (b3 - 128), rest)
    else none
  | _ => none

/-- Decode the continuation of a 4-byte sequence headed by `b1`. -/
def utf8Cont4 (b1 : Nat) : List Nat → Option (Nat × List Nat)
  | b2 :: b3 :: b4 :: rest =>
    if ((128 ≤ b2 ∧ b2 < 192) ∧ (128 ≤ b3 ∧ b3 < 192)) ∧ (128 ≤ b4 ∧ b4 < 192) then
      some ((b1 - 240) * 262144 + (b2 - 128) * 4096 + (b3 - 128) * 64 + (b4 - 128), rest)
    else none
  | _ => none

/-- Decode one code point from lead byte `b1` and the remaining input. -/
def utf8DecodeStep (b1 : Nat) (rest : List Nat) : Option (Nat × List Nat) :=
  if b1 < 128 then some (b1, rest)
  else if b1 < 192 then none
  else if b1 < 224 then utf8Cont2 b1 rest
  else if b1 < 240 then utf8Cont3 b1 rest
  else utf8Cont4 b1 rest

/-- Strict UTF-8 decoding: `none` on any ill-formed sequence. -/
def utf8Decode : List Nat → Option (List Nat)
  | [] => some []
  | b1 :: rest =>
    match h : utf8DecodeStep b1 rest with
    | none => none
    | some (c, rest2) =>
      have hle : rest2.length < rest.length + 1 := by
        have h2 := h
        unfold utf8DecodeStep at h2
        refine Nat.lt_succ_of_le ?_
        split at h2
        · simp only [Option.some.injEq, Prod.mk.injEq] at h2
          obtain ⟨-, rfl⟩ := h2
          exact Nat.le_refl _
        · split at h2
          · cases h2
          · split at h2
            · unfold utf8Cont2 at h2
              rcases rest with - | ⟨b2, r⟩
              · cases h2
              · simp only at h2
                split at h2
                · simp only [Option.some.injEq, Prod.mk.injEq] at h2
                  obtain ⟨-, rfl⟩ := h2
                  simp only [List.length_cons]
                  omega
                · cases h2
            · split at h2
              · unfold utf8Cont3 at h2
                rcases rest with - | ⟨b2, - | ⟨b3, r⟩⟩ <;> simp only at h2
                · cases h2
                · cases h2
                · split at h2
                  · simp only [Option.some.injEq, Prod.mk.injEq] at h2
                    obtain ⟨-, rfl⟩ := h2
                    simp only [List.length_cons]
                    omega
                  · cases h2
              · unfold utf8Cont4 at h2
                rcases rest with - | ⟨b2, - | ⟨b3, - | ⟨b4, r⟩⟩⟩ <;> simp only at h2
                · cases h2
                · cases h2
                · cases h2
                · split at h2
                  · simp only [Option.some.injEq, Prod.mk.injEq] at h2
                    obtain ⟨-, rfl⟩ := h2
                    simp only [List.length_cons]
                    omega
                  · cases h2
      (utf8Decode rest2).map (c :: ·)
termination_by l => l.length

/-- Total decoding as `Buffer.toString("utf-8")` behaves: on well-formed
input it is the strict decoding; ill-formed input yields replacement
text (modelled coarsely — no theorem depends on that branch). -/
def utf8DecodeLossy (bs : List Nat) : List Nat :=
  match utf8Decode bs with
  | some cs => cs
  | none => [65533]

/-! ## SHA-256 (`@noble/hashes/sha256`)

A concrete, executable SHA-256 over byte lists, used by
`initializeEncryptionSession` to bind the server salt to the normalized
username.  Words are `Nat` values kept below `2 ^ 32` explicitly. -/

/-- Truncate to a 32-bit word. -/
def w32 (x : Nat) : Nat := x % 4294967296

/-- 32-bit right rotation. -/
def rotr (n x : Nat) : Nat := w32 (x / 2 ^ n + x * 2 ^ (32 - n))

def shaK : List Nat :=
  [1116352408, 1899447441, 3049323471, 3921009573, 961987163,
   1508970993, 2453635748, 2870763221, 3624381080, 310598401,
   607225278, 1426881987, 1925078388, 2162078206, 2614888103,
   3248222580, 3835390401, 4022224774, 264347078, 604807628,
   770255983, 1249150122, 1555081692, 1996064986, 2554220882,
   2821834349, 2952996808, 3210313671, 3336571891, 3584528711,
   113926993, 338241895, 666307205, 773529912, 1294757372,
   1396182291, 1695183700, 1986661051, 2177026350, 2456956037,
   2730485921, 2820302411, 3259730800, 3345764771, 3516065817,
   3600352804, 4094571909, 275423344, 430227734, 506948616,
   659060556, 883997877, 958139571, 1322822218, 1537002063,
   1747873779, 1955562222, 2024104815, 2227730452, 2361852424,
   2428436474, 2756734187, 3204031479, 3329325298]

def shaH0 : List Nat :=
  [1779033703, 3144134277, 1013904242, 2773480762,
   1359893119, 2600822924, 528734635, 1541459225]

/-- Big-endian bytes of a 32-bit word. -/
def wordToBytes (x : Nat) : List Nat :=
  [x / 16777216 % 256, x / 65536 % 256, x / 256 % 256, x % 256]

/-- Combine 4 big-endian bytes into a word. -/
def bytesToWords : List Nat → List Nat
  | a :: b :: c :: d :: rest => (a * 16777216 + b * 65536 + c * 256 + d) :: bytesToWords rest
  | _ => []

/-- SHA-256 padding: append 0x80, zeros, and the 64-bit big-endian bit length. -/
def shaPad (msg : List Nat) : List Nat :=
  let len := msg.length
  let zeros := (64 - (len + 9) % 64) % 64
  let bitLen := len * 8
  msg ++ [128] ++ List.replicate zeros 0 ++
    [bitLen / 72057594037927936 % 256, bitLen / 281474976710656 % 256,
     bitLen / 1099511627776 % 256, bitLen / 4294967296 % 256,
     bitLen / 16777216 % 256, bitLen / 65536 % 256, bitLen / 256 % 256,
     bitLen % 256]

/-- Extend the 16 message-schedule words to 64. -/
def shaSchedule (ws : List Nat) (i : Nat) : List Nat :=
  match i with
  | 0 => ws
  | j + 1 =>
    let ws := shaSchedule ws j
    let t := 16 + j
    let w15 := ws.getD (t - 15) 0
    let w2 := ws.getD (t - 2) 0
    let s0 := (rotr 7 w15) ^^^ (rotr 18 w15) ^^^ (w15 / 2 ^ 3)
    let s1 := (rotr 17 w2) ^^^ (rotr 19 w2) ^^^ (w2 / 2 ^ 10)
    ws ++ [w32 (ws.getD (t - 16) 0 + s0 + ws.getD (t - 7) 0 + s1)]

/-- One round of the SHA-256 compression function. -/
def shaRound (ws : List Nat) (st : List Nat) (t : Nat) : List Nat :=
  let a := st.getD 0 0
  let b := st.getD 1 0
  let c := st.getD 2 0
  let d := st.getD 3 0
  let e := st.getD 4 0
  let f := st.getD 5 0
  let g := st.getD 6 0
  let h := st.getD 7 0
  let s1 := (rotr 6 e) ^^^ (rotr 11 e) ^^^ (rotr 25 e)
  let ch := (e &&& f) ^^^ ((4294967295 - e) &&& g)
  let t1 := w32 (h + s1 + ch + shaK.getD t 0 + ws.getD t 0)
  let s0 := (rotr 2 a) ^^^ (rotr 13 a) ^^^ (rotr 22 a)
  let mj := (a &&& b) ^^^ (a &&& c) ^^^ (b &&& c)
  let t2 := w32 (s0 + mj)
  [w32 (t1 + t2), a, b, c, w32 (d + t1), e, f, g]

/-- Run rounds 0..t-1. -/
def shaRounds (ws : List Nat) (st : List Nat) : Nat → List Nat
  | 0 => st
  | t + 1 => shaRound ws (shaRounds ws st t) t

/-- Compress one 16-word block into the hash state. -/
def shaCompress (hs : List Nat) (block : List Nat) : List Nat :=
  let ws := shaSchedule block 48
  let st := shaRounds ws hs 64
  (List.range 8).map (fun i => w32 (hs.getD i 0 + st.getD i 0))

/-- Split a word list (length a multiple of 16) into 16-word blocks. -/
def wordsToBlocks : List Nat → List (List Nat)
  | w0 :: w1 :: w2 :: w3 :: w4 :: w5 :: w6 :: w7 ::
    w8 :: w9 :: w10 :: w11 :: w12 :: w13 :: w14 :: w15 :: rest =>
    [w0, w1, w2, w3, w4, w5, w6, w7, w8, w9, w10, w11, w12, w13, w14, w15] ::
      wordsToBlocks rest
  | _ => []

/-- Fold the message blocks through the compression function. -/
def shaBlocks (hs : List Nat) : List (List Nat) → List Nat
  | [] => hs
  | block :: rest => shaBlocks (shaCompress hs block) rest

/-- SHA-256 of a byte list (the `sha256` of `@noble/hashes/sha256`). -/
def sha256 (msg : List Nat) : List Nat :=
  (shaBlocks shaH0 (wordsToBlocks (bytesToWords (shaPad msg)))).flatMap wordToBytes

/-! ## JS string normalization

`initializeEncryptionSession` normalizes the username with
`username.trim().toLowerCase()`. `trim` removes the ECMAScript whitespace
and line-terminator code points from both ends; `toLowerCase` is modelled
by the simple case mapping restricted to ASCII `A`-`Z` (the full Unicode
simple mapping agrees with this on ASCII, the only range the claims
exercise). -/

/-- ECMAScript `String.prototype.trim` whitespace set. -/
def isJsWhitespace (c : Nat) : Bool :=
  (9 ≤ c && c ≤ 13) || c == 32 || c == 160 || c == 5760 ||
  (8192 ≤ c && c ≤ 8202) || c == 8232 || c == 8233 || c == 8239 ||
  c == 8287 || c == 12288 || c == 65279

/-- `String.prototype.trim`: drop whitespace from both ends. -/
def jsTrim (s : List Nat) : List Nat :=
  ((s.dropWhile isJsWhitespace).reverse.dropWhile isJsWhitespace).reverse

/-- ASCII lowercasing, as `String.prototype.toLowerCase` acts on ASCII. -/
def jsToLowerCase (s : List Nat) : List Nat :=
  s.map (fun c => if 65 ≤ c ∧ c ≤ 90 then c + 32 else c)

/-! ## The encryption service (`src/src/services/encryption.ts`)

The module-level `sessionKey` variable, the entropy source behind
`randomBytes`, and the record of retired key buffers form the explicit
`EncState`.  `argon2id` and `chacha20poly1305` stay abstract as
`CryptoPrims` (see the header comment). -/

/-- The two failure kinds the service can raise: `requireSessionKey`
throws when no key is held, and `cipher.decrypt` throws on an
authentication failure.  (`initializeEncryptionSession` has no failure
path at all — see C3.) -/
inductive CryptoError where
  | sessionNotReady
  | decryptionFailed
deriving DecidableEq

/-- Abstract interface of the external KDF and AEAD cipher.
`argon2id password salt` stands for `argon2id(password, {t: 2, m: 65536,
p: 4, dkLen: 32, salt})`; `chachaEncrypt key nonce msg` and
`chachaDecrypt key nonce ct` stand for `chacha20poly1305(key)`'s
`encrypt`/`decrypt` with empty associated data, `decrypt` returning
`none` where the library throws on tag-verification failure. -/
structure CryptoPrims where
  argon2id : List Nat → List Nat → List Nat
  chachaEncrypt : List Nat → List Nat → List Nat → List Nat
  chachaDecrypt : List Nat → List Nat → List Nat → Option (List Nat)

/-- Module state: the `sessionKey` variable, the entropy stream feeding
`randomBytes`, and the final contents of key buffers the variable no
longer references (zeros when the buffer was wiped with `fill(0)`,
the old bytes when it was merely dropped). -/
structure EncState where
  sessionKey : Option (List Nat)
  entropy : List Nat
  retired : List (List Nat)
deriving DecidableEq

/-- The state at module load: `let sessionKey = null`. -/
def initialState (entropy : List Nat) : EncState := ⟨none, entropy, []⟩

/-- Wire form of one sealed secret: base64 text for ciphertext and nonce
(lists of character codes). -/
structure EncryptedField where
  ciphertext : List Nat
  nonce : List Nat
deriving DecidableEq

/-- Embeds `requireSessionKey` (lines 46-51): return the held key or
throw. -/
def requireSessionKey (st : EncState) : Except CryptoError (List Nat) :=
  match st.sessionKey with
  | some k => Except.ok k
  | none => Except.error CryptoError.sessionNotReady

/-- Embeds `initializeEncryptionSession` (lines 24-37; the Lean name is
shortened).  Decode the salt, normalize the username, mix
`sha256(saltBytes ++ ":" ++ usernameBytes)` (the `":"` is `Buffer.from(":")
= [58]`), and derive the key with Argon2id.  The plain assignment
`sessionKey = argon2id(...)` drops any previous buffer without wiping it,
so the old key bytes are retired unchanged. -/
def initEncryptionSession (prims : CryptoPrims)
    (username masterPassword userSaltBase64 : List Nat)
    (st : EncState) : EncState :=
  let saltBytes := base64Decode userSaltBase64
  let usernameBytes := utf8Encode (jsToLowerCase (jsTrim username))
  let mixedSalt := sha256 (saltBytes ++ [58] ++ usernameBytes)
  { sessionKey := some (prims.argon2id (utf8Encode masterPassword) mixedSalt)
    entropy := st.entropy
    retired :=
      match st.sessionKey with
      | some old => old :: st.retired
      | none => st.retired }

/-- Embeds `clearEncryptionSession` (lines 39-44): `fill(0)` the held
buffer (so it is retired as zeros), then `sessionKey = null`. -/
def clearEncryptionSession (st : EncState) : EncState :=
  match st.sessionKey with
  | some old => ⟨none, st.entropy, List.replicate old.length 0 :: st.retired⟩
  | none => ⟨none, st.entropy, st.retired⟩

/-- Embeds `encryptSecret` (lines 53-63): require the key, draw a fresh
12-byte nonce from `randomBytes`, AEAD-encrypt the UTF-8 plaintext with
empty associated data, and base64 both outputs. -/
def encryptSecret (prims : CryptoPrims) (plaintext : List Nat)
    (st : EncState) : Except CryptoError EncryptedField × EncState :=
  match requireSessionKey st with
  | Except.error e => (Except.error e, st)
  | Except.ok key =>
    let nonce := st.entropy.take 12
    let ciphertext := prims.chachaEncrypt key nonce (utf8Encode plaintext)
    (Except.ok ⟨base64Encode ciphertext, base64Encode nonce⟩,
     ⟨st.sessionKey, st.entropy.drop 12, st.retired⟩)

/-- Embeds `decryptSecret` (lines 65-74): require the key, base64-decode
nonce and ciphertext, AEAD-decrypt (an authentication failure in the
library surfaces as the thrown `decryptionFailed`), and decode the
plaintext bytes as UTF-8 text. -/
def decryptSecret (prims : CryptoPrims)
    (ciphertextBase64 nonceBase64 : List Nat)
    (st : EncState) : Except CryptoError (List Nat) × EncState :=
  match requireSessionKey st with
  | Except.error e => (Except.error e, st)
  | Except.ok key =>
    match prims.chachaDecrypt key (base64Decode nonceBase64)
        (base64Decode ciphertextBase64) with
    | none => (Except.error CryptoError.decryptionFailed, st)
    | some plaintext => (Except.ok (utf8DecodeLossy plaintext), st)

/-- Embeds `isEncryptionReady` (line 76). -/
def isEncryptionReady (st : EncState) : Bool := st.sessionKey.isSome

/-- The key-derivation pipeline of claim C2 stated as written: identical
to `initEncryptionSession` except that the binding value hashes the bare
concatenation of the salt bytes and the normalized username bytes, with
no separator between them.  Compared against the source-derived
definition in the C2 theorems. -/
def initSessionClaimC2 (prims : CryptoPrims)
    (username masterPassword userSaltBase64 : List Nat)
    (st : EncState) : EncState :=
  let saltBytes := base64Decode userSaltBase64
  let usernameBytes := utf8Encode (jsToLowerCase (jsTrim username))
  let mixedSalt := sha256 (saltBytes ++ usernameBytes)
  { sessionKey := some (prims.argon2id (utf8Encode masterPassword) mixedSalt)
    entropy := st.entropy
    retired :=
      match st.sessionKey with
      | some old => old :: st.retired
      | none => st.retired }


/-! ## Concrete primitive instances

Trivial instantiations of `CryptoPrims`, used only to show that the
hypotheses of the conditional theorems are satisfiable and to evaluate
the embedded service on concrete inputs. -/

/-- KDF = identity in the salt; cipher = identity; decryption succeeds. -/
def primsId : CryptoPrims :=
  ⟨fun _ salt => salt, fun _ _ msg => msg, fun _ _ ct => some ct⟩

/-- Like `primsId` but decryption always fails its tag check. -/
def primsRejecting : CryptoPrims :=
  ⟨fun _ salt => salt, fun _ _ msg => msg, fun _ _ _ => none⟩

/-- A cipher that prepends the nonce, so distinct nonces give distinct
ciphertexts. -/
def primsNoncePrefixing : CryptoPrims :=
  ⟨fun _ salt => salt, fun _ nonce msg => nonce ++ msg, fun _ _ _ => none⟩

/-- A cipher that appends a 16-byte tag, matching the AEAD length law. -/
def primsTagging : CryptoPrims :=
  ⟨fun _ salt => salt, fun _ _ msg => msg ++ List.replicate 16 0,
   fun _ _ _ => none⟩


theorem charToSextet_sextetToChar {s : Nat} (h : s < 64) :
    charToSextet (sextetToChar s) = some s := by
  interval_cases s <;> decide

theorem base64_roundtrip : ∀ (bs : List Nat), isBytes bs →
    base64Decode (base64Encode bs) = bs := by
  intro bs
  induction bs using base64Encode.induct with
  | case1 b1 b2 b3 rest ih =>
    intro h
    have hb1 : b1 < 256 := h b1 (by simp)
    have hb2 : b2 < 256 := h b2 (by simp)
    have hb3 : b3 < 256 := h b3 (by simp)
    have hrest : isBytes rest := fun b hb => h b (by simp [hb])
    have e1 : charToSextet (sextetToChar (b1 / 4)) = some (b1 / 4) :=
      charToSextet_sextetToChar (by omega)
    have e2 : charToSextet (sextetToChar ((b1 % 4) * 16 + b2 / 16)) =
        some ((b1 % 4) * 16 + b2 / 16) :=
      charToSextet_sextetToChar (by omega)
    have e3 : charToSextet (sextetToChar ((b2 % 16) * 4 + b3 / 64)) =
        some ((b2 % 16) * 4 + b3 / 64) :=
      charToSextet_sextetToChar (by omega)
    have e4 : charToSextet (sextetToChar (b3 % 64)) = some (b3 % 64) :=
      charToSextet_sextetToChar (by omega)
    have ihr := ih hrest
    simp only [base64Decode, base64Encode, List.filterMap_cons, e1, e2, e3, e4] at ihr ⊢
    simp only [sextetsToBytes, List.cons.injEq]
    exact ⟨by omega, by omega, by omega, ihr⟩
  | case2 b1 b2 =>
    intro h
    have hb1 : b1 < 256 := h b1 (by simp)
    have hb2 : b2 < 256 := h b2 (by simp)
    have e1 : charToSextet (sextetToChar (b1 / 4)) = some (b1 / 4) :=
      charToSextet_sextetToChar (by omega)
    have e2 : charToSextet (sextetToChar ((b1 % 4) * 16 + b2 / 16)) =
        some ((b1 % 4) * 16 + b2 / 16) :=
      charToSextet_sextetToChar (by omega)
    have e3 : charToSextet (sextetToChar ((b2 % 16) * 4)) = some ((b2 % 16) * 4) :=
      charToSextet_sextetToChar (by omega)
    have h61 : charToSextet 61 = none := by decide
    simp only [base64Decode, base64Encode, List.filterMap_cons, e1, e2, e3, h61,
      List.filterMap_nil, sextetsToBytes, List.cons.injEq, and_true,
      List.nil_eq, List.cons_ne_nil]
    omega
  | case3 b1 =>
    intro h
    have hb1 : b1 < 256 := h b1 (by simp)
    have e1 : charToSextet (sextetToChar (b1 / 4)) = some (b1 / 4) :=
      charToSextet_sextetToChar (by omega)
    have e2 : charToSextet (sextetToChar ((b1 % 4) * 16)) = some ((b1 % 4) * 16) :=
      charToSextet_sextetToChar (by omega)
    have h61 : charToSextet 61 = none := by decide
    simp only [base64Decode, base64Encode, List.filterMap_cons, e1, e2, h61,
      List.filterMap_nil, sextetsToBytes, List.cons.injEq, and_true,
      List.nil_eq, List.cons_ne_nil]
    omega
  | case4 => intro _; rfl

theorem base64Encode_injOn {a b : List Nat} (ha : isBytes a) (hb : isBytes b)
    (h : base64Encode a = base64Encode b) : a = b := by
  have := base64_roundtrip a ha
  have := base64_roundtrip b hb
  rw [← base64_roundtrip a ha, ← base64_roundtrip b hb, h]

theorem utf8DecodeStep_length {b1 : Nat} {rest : List Nat} {c : Nat}
    {rest2 : List Nat} (h : utf8DecodeStep b1 rest = some (c, rest2)) :
    rest2.length ≤ rest.length := by
  unfold utf8DecodeStep at h
  split at h
  · simp only [Option.some.injEq, Prod.mk.injEq] at h
    obtain ⟨-, rfl⟩ := h
    exact Nat.le_refl _
  · split at h
    · cases h
    · split at h
      · unfold utf8Cont2 at h
        rcases rest with - | ⟨b2, r⟩
        · cases h
        · simp only at h
          split at h
          · simp only [Option.some.injEq, Prod.mk.injEq] at h
            obtain ⟨-, rfl⟩ := h
            simp only [List.length_cons]
            omega
          · cases h
      · split at h
        · unfold utf8Cont3 at h
          rcases rest with - | ⟨b2, - | ⟨b3, r⟩⟩ <;> simp only at h
          · cases h
          · cases h
          · split at h
            · simp only [Option.some.injEq, Prod.mk.injEq] at h
              obtain ⟨-, rfl⟩ := h
              simp only [List.length_cons]
              omega
            · cases h
        · unfold utf8Cont4 at h
          rcases rest with - | ⟨b2, - | ⟨b3, - | ⟨b4, r⟩⟩⟩ <;> simp only at h
          · cases h
          · cases h
          · cases h
          · split at h
            · simp only [Option.some.injEq, Prod.mk.injEq] at h
              obtain ⟨-, rfl⟩ := h
              simp only [List.length_cons]
              omega
            · cases h

theorem utf8DecodeStep_encodeChar {c : Nat} (hc : validScalar c)
    (rest : List Nat) :
    ∃ b1 tail, utf8EncodeChar c ++ rest = b1 :: tail ∧
      utf8DecodeStep b1 tail = some (c, rest) := by
  obtain ⟨hlt, -⟩ := hc
  by_cases h1 : c < 128
  · refine ⟨c, rest, by simp [utf8EncodeChar, h1], ?_⟩
    simp only [utf8DecodeStep, if_pos h1]
  · by_cases h2 : c < 2048
    · refine ⟨192 + c / 64, (128 + c % 64) :: rest,
        by simp [utf8EncodeChar, h1, h2], ?_⟩
      have e1 : ¬ (192 + c / 64 < 128) := by omega
      have e2 : ¬ (192 + c / 64 < 192) := by omega
      have e3 : 192 + c / 64 < 224 := by omega
      have e4 : 128 ≤ 128 + c % 64 ∧ 128 + c % 64 < 192 := by omega
      simp only [utf8DecodeStep, if_neg e1, if_neg e2, if_pos e3, utf8Cont2,
        if_pos e4, Option.some.injEq, Prod.mk.injEq]
      exact ⟨by omega, trivial⟩
    · by_cases h3 : c < 65536
      · refine ⟨224 + c / 4096, (128 + c / 64 % 64) :: (128 + c % 64) :: rest,
          by simp [utf8EncodeChar, h1, h2, h3], ?_⟩
        have e1 : ¬ (224 + c / 4096 < 128) := by omega
        have e2 : ¬ (224 + c / 4096 < 192) := by omega
        have e3 : ¬ (224 + c / 4096 < 224) := by omega
        have e4 : 224 + c / 4096 < 240 := by omega
        have e5 : (128 ≤ 128 + c / 64 % 64 ∧ 128 + c / 64 % 64 < 192) ∧
            (128 ≤ 128 + c % 64 ∧ 128 + c % 64 < 192) := by omega
        simp only [utf8DecodeStep, if_neg e1, if_neg e2, if_neg e3, if_pos e4,
          utf8Cont3, if_pos e5, Option.some.injEq, Prod.mk.injEq]
        exact ⟨by omega, trivial⟩
      · refine ⟨240 + c / 262144,
          (128 + c / 4096 % 64) :: (128 + c / 64 % 64) :: (128 + c % 64) :: rest,
          by simp [utf8EncodeChar, h1, h2, h3], ?_⟩
        have e1 : ¬ (240 + c / 262144 < 128) := by omega
        have e2 : ¬ (240 + c / 262144 < 192) := by omega
        have e3 : ¬ (240 + c / 262144 < 224) := by omega
        have e4 : ¬ (240 + c / 262144 < 240) := by omega
        have e5 : ((128 ≤ 128 + c / 4096 % 64 ∧ 128 + c / 4096 % 64 < 192) ∧
            (128 ≤ 128 + c / 64 % 64 ∧ 128 + c / 64 % 64 < 192)) ∧
            (128 ≤ 128 + c % 64 ∧ 128 + c % 64 < 192) := by omega
        simp only [utf8DecodeStep, if_neg e1, if_neg e2, if_neg e3, if_neg e4,
          utf8Cont4, if_pos e5, Option.some.injEq, Prod.mk.injEq]
        exact ⟨by omega, trivial⟩

theorem utf8Decode_nil : utf8Decode [] = some [] := by
  rw [utf8Decode]

theorem utf8Decode_cons_of_step {b1 c : Nat} {rest rest2 : List Nat}
    (h : utf8DecodeStep b1 rest = some (c, rest2)) :
    utf8Decode (b1 :: rest) = (utf8Decode rest2).map (c :: ·) := by
  rw [utf8Decode]
  split
  · rename_i heq
    rw [heq] at h
    cases h
  · rename_i c2 rest3 heq
    rw [heq] at h
    simp only [Option.some.injEq, Prod.mk.injEq] at h
    obtain ⟨rfl, rfl⟩ := h
    rfl

theorem utf8Decode_encodeChar_append {c : Nat} (hc : validScalar c)
    (rest : List Nat) :
    utf8Decode (utf8EncodeChar c ++ rest) = (utf8Decode rest).map (c :: ·) := by
  obtain ⟨b1, tail, heq, hstep⟩ := utf8DecodeStep_encodeChar hc rest
  rw [heq, utf8Decode_cons_of_step hstep]

theorem utf8_roundtrip : ∀ (cs : List Nat), (∀ c ∈ cs, validScalar c) →
    utf8Decode (utf8Encode cs) = some cs := by
  intro cs
  induction cs with
  | nil => intro _; exact utf8Decode_nil
  | cons c cs ih =>
    intro h
    have hc : validScalar c := h c (by simp)
    have hcs : ∀ x ∈ cs, validScalar x := fun x hx => h x (by simp [hx])
    simp only [utf8Encode, List.flatMap_cons]
    rw [utf8Decode_encodeChar_append hc]
    rw [show cs.flatMap utf8EncodeChar = utf8Encode cs from rfl, ih hcs]
    rfl

theorem utf8DecodeLossy_encode {cs : List Nat} (h : ∀ c ∈ cs, validScalar c) :
    utf8DecodeLossy (utf8Encode cs) = cs := by
  simp only [utf8DecodeLossy, utf8_roundtrip cs h]

theorem utf8EncodeChar_isBytes (c : Nat) (hc : c < 1114112) :
    isBytes (utf8EncodeChar c) := by
  intro b hb
  simp only [utf8EncodeChar] at hb
  split at hb <;> [skip; split at hb] <;> [skip; skip; split at hb] <;>
    simp only [List.mem_cons, List.mem_singleton, List.not_mem_nil, or_false] at hb <;>
    omega

theorem utf8Encode_isBytes {cs : List Nat} (h : ∀ c ∈ cs, validScalar c) :
    isBytes (utf8Encode cs) := by
  intro b hb
  simp only [utf8Encode, List.mem_flatMap] at hb
  obtain ⟨c, hc, hbc⟩ := hb
  exact utf8EncodeChar_isBytes c (h c hc).1 b hbc

theorem shaCompress_length (hs block : List Nat) :
    (shaCompress hs block).length = 8 := by
  simp [shaCompress]

theorem shaBlocks_length : ∀ (blocks : List (List Nat)) (hs : List Nat),
    hs.length = 8 → (shaBlocks hs blocks).length = 8 := by
  intro blocks
  induction blocks with
  | nil => intro hs h; exact h
  | cons b rest ih =>
    intro hs h
    exact ih (shaCompress hs b) (shaCompress_length hs b)

theorem flatMap_wordToBytes_length (ws : List Nat) :
    (ws.flatMap wordToBytes).length = 4 * ws.length := by
  induction ws with
  | nil => rfl
  | cons w rest ih =>
    simp only [List.flatMap_cons, List.length_append, ih, wordToBytes,
      List.length_cons, List.length_nil, List.length_cons]
    omega

/-- SHA-256 always produces 32 bytes, so the Argon2 salt derived from it
always has the cipher-key length. -/
theorem sha256_length (msg : List Nat) : (sha256 msg).length = 32 := by
  simp only [sha256, flatMap_wordToBytes_length]
  rw [shaBlocks_length _ shaH0 (by rfl)]

-- FIPS 180-4 test vector: SHA-256 of "abc".
set_option maxRecDepth 4000 in
example : sha256 [97, 98, 99] =
  [186, 120, 22, 191, 143, 1, 207, 234, 65, 65,
   64, 222, 93, 174, 34, 35, 176, 3, 97, 163,
   150, 23, 122, 156, 180, 16, 255, 97, 242, 0,
   21, 173] := by decide

-- SHA-256 of the empty message.
set_option maxRecDepth 4000 in
example : sha256 [] =
  [227, 176, 196, 66, 152, 252, 28, 20, 154, 251,
   244, 200, 153, 111, 185, 36, 39, 174, 65, 228,
   100, 155, 147, 76, 164, 149, 153, 27, 120, 82,
   184, 85] := by decide

/-! ## Service-level helper lemmas -/

theorem isBytes_take {l : List Nat} (h : isBytes l) (n : Nat) :
    isBytes (l.take n) := fun b hb => h b (List.take_subset n l hb)

theorem requireSessionKey_some {st : EncState} {key : List Nat}
    (hkey : st.sessionKey = some key) :
    requireSessionKey st = Except.ok key := by
  simp [requireSessionKey, hkey]

theorem requireSessionKey_none {st : EncState} (hkey : st.sessionKey = none) :
    requireSessionKey st = Except.error CryptoError.sessionNotReady := by
  simp [requireSessionKey, hkey]

theorem encryptSecret_active {prims : CryptoPrims} {key : List Nat}
    {st : EncState} (x : List Nat) (hkey : st.sessionKey = some key) :
    encryptSecret prims x st =
      (Except.ok ⟨base64Encode (prims.chachaEncrypt key (st.entropy.take 12)
          (utf8Encode x)),
        base64Encode (st.entropy.take 12)⟩,
       ⟨st.sessionKey, st.entropy.drop 12, st.retired⟩) := by
  rw [encryptSecret, requireSessionKey_some hkey]

theorem encryptSecret_noKey {prims : CryptoPrims} {st : EncState}
    (x : List Nat) (hkey : st.sessionKey = none) :
    encryptSecret prims x st = (Except.error CryptoError.sessionNotReady, st) := by
  rw [encryptSecret, requireSessionKey_none hkey]

theorem decryptSecret_noKey {prims : CryptoPrims} {st : EncState}
    (c n : List Nat) (hkey : st.sessionKey = none) :
    decryptSecret prims c n st = (Except.error CryptoError.sessionNotReady, st) := by
  rw [decryptSecret, requireSessionKey_none hkey]

theorem decryptSecret_of_fail {prims : CryptoPrims} {key : List Nat}
    {st : EncState} {c n : List Nat} (hkey : st.sessionKey = some key)
    (hfail : prims.chachaDecrypt key (base64Decode n) (base64Decode c) = none) :
    decryptSecret prims c n st = (Except.error CryptoError.decryptionFailed, st) := by
  rw [decryptSecret, requireSessionKey_some hkey]
  simp only [hfail]

theorem decryptSecret_of_ok {prims : CryptoPrims} {key pt : List Nat}
    {st : EncState} {c n : List Nat} (hkey : st.sessionKey = some key)
    (hok : prims.chachaDecrypt key (base64Decode n) (base64Decode c) = some pt) :
    decryptSecret prims c n st = (Except.ok (utf8DecodeLossy pt), st) := by
  rw [decryptSecret, requireSessionKey_some hkey]
  simp only [hok]

/-! ## Claim theorems -/

/-- C5: whenever no session key is held — in the module-load state and
after `clearEncryptionSession` — `encryptSecret` and `decryptSecret` fail
with the `sessionNotReady` kind (a typed `CryptoError`, not a crash) and
return the state unchanged; the initial state and every
post-`clearEncryptionSession` state hold no key. -/
theorem claim5_sessionNotReady (prims : CryptoPrims)
    (x c n ent : List Nat) (st st2 : EncState)
    (hkey : st.sessionKey = none) :
    encryptSecret prims x st = (Except.error CryptoError.sessionNotReady, st) ∧
    decryptSecret prims c n st = (Except.error CryptoError.sessionNotReady, st) ∧
    (initialState ent).sessionKey = none ∧
    (clearEncryptionSession st2).sessionKey = none := by
  refine ⟨encryptSecret_noKey x hkey, decryptSecret_noKey c n hkey, rfl, ?_⟩
  rw [clearEncryptionSession]
  rcases h : st2.sessionKey with - | k <;> simp

theorem claim5_sessionNotReady_witness :
    (initialState []).sessionKey = none ∧
    (encryptSecret primsId [104, 105] (initialState []) =
      (Except.error CryptoError.sessionNotReady, initialState []) ∧
     decryptSecret primsId [97] [98] (initialState []) =
      (Except.error CryptoError.sessionNotReady, initialState []) ∧
     (initialState []).sessionKey = none ∧
     (clearEncryptionSession (initialState [])).sessionKey = none) :=
  ⟨rfl, claim5_sessionNotReady primsId [104, 105] [97] [98] []
    (initialState []) (initialState []) rfl⟩

/-- C4: whenever the AEAD tag check fails — the library's `decrypt`
throws, modelled as `chachaDecrypt = none` — `decryptSecret` returns the
`decryptionFailed` kind and never a wrong plaintext; this covers a key
derived from a different master password, a flipped ciphertext or nonce
bit, and garbage bytes from malformed base64, all of which reach
`chachaDecrypt` and fail its tag verification. -/
theorem claim4_decryptionFailed (prims : CryptoPrims) (key c n : List Nat)
    (st : EncState) (hkey : st.sessionKey = some key)
    (hfail : prims.chachaDecrypt key (base64Decode n) (base64Decode c) = none) :
    decryptSecret prims c n st = (Except.error CryptoError.decryptionFailed, st) :=
  decryptSecret_of_fail hkey hfail

theorem claim4_decryptionFailed_witness :
    ((⟨some [7], [], []⟩ : EncState).sessionKey = some [7]) ∧
    (primsRejecting.chachaDecrypt [7] (base64Decode [81, 103, 61, 61])
      (base64Decode [65, 81, 61, 61]) = none) ∧
    decryptSecret primsRejecting [65, 81, 61, 61] [81, 103, 61, 61]
        (⟨some [7], [], []⟩ : EncState) =
      (Except.error CryptoError.decryptionFailed, (⟨some [7], [], []⟩ : EncState)) :=
  ⟨rfl, rfl, claim4_decryptionFailed primsRejecting [7] [65, 81, 61, 61]
    [81, 103, 61, 61] ⟨some [7], [], []⟩ rfl rfl⟩

/-- C1: within one active session, `decryptSecret` applied to the
ciphertext/nonce pair produced by `encryptSecret x` returns `x`, for
every string of Unicode scalar values (empty, embedded nulls, emoji
included), given the AEAD round-trip contract of `chacha20poly1305` for
the session key and that the cipher emits bytes. -/
theorem claim1_roundtrip (prims : CryptoPrims) (key x : List Nat)
    (st : EncState) (hkey : st.sessionKey = some key)
    (hx : ∀ c ∈ x, validScalar c)
    (hent : isBytes st.entropy)
    (haead : ∀ nonce msg,
      prims.chachaDecrypt key nonce (prims.chachaEncrypt key nonce msg) = some msg)
    (hct : isBytes (prims.chachaEncrypt key (st.entropy.take 12) (utf8Encode x))) :
    ∃ ef st2, encryptSecret prims x st = (Except.ok ef, st2) ∧
      decryptSecret prims ef.ciphertext ef.nonce st2 = (Except.ok x, st2) := by
  refine ⟨⟨base64Encode (prims.chachaEncrypt key (st.entropy.take 12)
      (utf8Encode x)), base64Encode (st.entropy.take 12)⟩,
    ⟨st.sessionKey, st.entropy.drop 12, st.retired⟩,
    encryptSecret_active x hkey, ?_⟩
  have hnonce : isBytes (st.entropy.take 12) := isBytes_take hent 12
  have hdec : prims.chachaDecrypt key
      (base64Decode (base64Encode (st.entropy.take 12)))
      (base64Decode (base64Encode (prims.chachaEncrypt key (st.entropy.take 12)
        (utf8Encode x)))) = some (utf8Encode x) := by
    rw [base64_roundtrip _ hnonce, base64_roundtrip _ hct]
    exact haead _ _
  dsimp only
  have hkey2 : (⟨st.sessionKey, st.entropy.drop 12, st.retired⟩ : EncState).sessionKey
      = some key := hkey
  rw [decryptSecret_of_ok hkey2 hdec, utf8DecodeLossy_encode hx]

theorem claim1_roundtrip_witness :
    ((⟨some [9], [1, 2, 3], []⟩ : EncState).sessionKey = some [9]) ∧
    (∀ c ∈ [104, 0, 233, 128512], validScalar c) ∧
    isBytes (⟨some [9], [1, 2, 3], []⟩ : EncState).entropy ∧
    (∀ nonce msg, primsId.chachaDecrypt [9] nonce
      (primsId.chachaEncrypt [9] nonce msg) = some msg) ∧
    isBytes (primsId.chachaEncrypt [9]
      ((⟨some [9], [1, 2, 3], []⟩ : EncState).entropy.take 12)
      (utf8Encode [104, 0, 233, 128512])) ∧
    (∃ ef st2,
      encryptSecret primsId [104, 0, 233, 128512]
        (⟨some [9], [1, 2, 3], []⟩ : EncState) = (Except.ok ef, st2) ∧
      decryptSecret primsId ef.ciphertext ef.nonce st2 =
        (Except.ok [104, 0, 233, 128512], st2)) :=
  ⟨rfl, by decide, by decide, fun _ _ => rfl, by decide,
   claim1_roundtrip primsId [9] [104, 0, 233, 128512] ⟨some [9], [1, 2, 3], []⟩
     rfl (by decide) (by decide) (fun _ _ => rfl) (by decide)⟩

/-- C10: with an active session key, `encryptSecret` succeeds and its
base64-decoded ciphertext is exactly 16 bytes (the appended Poly1305
tag) longer than the UTF-8 byte length of the plaintext, given the AEAD
length law of `chacha20poly1305` and that the cipher emits bytes; the
witness instantiates the empty plaintext, whose ciphertext decodes to
exactly 16 bytes. -/
theorem claim10_ciphertext_length (prims : CryptoPrims) (key x : List Nat)
    (st : EncState) (hkey : st.sessionKey = some key)
    (hlen : ∀ nonce msg, (prims.chachaEncrypt key nonce msg).length =
      msg.length + 16)
    (hct : isBytes (prims.chachaEncrypt key (st.entropy.take 12) (utf8Encode x))) :
    ∃ ef st2, encryptSecret prims x st = (Except.ok ef, st2) ∧
      (base64Decode ef.ciphertext).length = (utf8Encode x).length + 16 := by
  refine ⟨⟨base64Encode (prims.chachaEncrypt key (st.entropy.take 12)
      (utf8Encode x)), base64Encode (st.entropy.take 12)⟩,
    ⟨st.sessionKey, st.entropy.drop 12, st.retired⟩,
    encryptSecret_active x hkey, ?_⟩
  rw [base64_roundtrip _ hct, hlen]

theorem claim10_ciphertext_length_witness :
    ((⟨some [9], [], []⟩ : EncState).sessionKey = some [9]) ∧
    (∀ nonce msg, (primsTagging.chachaEncrypt [9] nonce msg).length =
      msg.length + 16) ∧
    isBytes (primsTagging.chachaEncrypt [9]
      ((⟨some [9], [], []⟩ : EncState).entropy.take 12) (utf8Encode [])) ∧
    (∃ ef st2, encryptSecret primsTagging [] (⟨some [9], [], []⟩ : EncState) =
        (Except.ok ef, st2) ∧
      (base64Decode ef.ciphertext).length = 16) :=
  ⟨rfl, fun _ msg => by simp [primsTagging], by decide,
   claim10_ciphertext_length primsTagging [9] [] ⟨some [9], [], []⟩ rfl
     (fun _ msg => by simp [primsTagging]) (by decide)⟩

/-- C7: each `encryptSecret` call draws a fresh 12-byte nonce from the
entropy source, so two calls on the same plaintext in the same active
session return fields whose nonces differ and whose ciphertexts differ,
given that the two entropy draws are distinct (the CSPRNG contract) and
that the cipher separates the two nonces; both nonces base64-decode to
exactly 12 bytes. -/
theorem claim7_nonce_freshness (prims : CryptoPrims) (key x : List Nat)
    (st : EncState) (hkey : st.sessionKey = some key)
    (hlen : 24 ≤ st.entropy.length)
    (hent : isBytes st.entropy)
    (hdraws : st.entropy.take 12 ≠ (st.entropy.drop 12).take 12)
    (hcipher : prims.chachaEncrypt key (st.entropy.take 12) (utf8Encode x) ≠
      prims.chachaEncrypt key ((st.entropy.drop 12).take 12) (utf8Encode x))
    (hct1 : isBytes (prims.chachaEncrypt key (st.entropy.take 12) (utf8Encode x)))
    (hct2 : isBytes (prims.chachaEncrypt key ((st.entropy.drop 12).take 12)
      (utf8Encode x))) :
    ∃ ef1 ef2 st2 st3,
      encryptSecret prims x st = (Except.ok ef1, st2) ∧
      encryptSecret prims x st2 = (Except.ok ef2, st3) ∧
      ef1.nonce ≠ ef2.nonce ∧
      ef1.ciphertext ≠ ef2.ciphertext ∧
      (base64Decode ef1.nonce).length = 12 ∧
      (base64Decode ef2.nonce).length = 12 := by
  have hent2 : isBytes (st.entropy.drop 12) :=
    fun b hb => hent b (List.drop_subset 12 st.entropy hb)
  refine ⟨⟨base64Encode (prims.chachaEncrypt key (st.entropy.take 12)
      (utf8Encode x)), base64Encode (st.entropy.take 12)⟩,
    ⟨base64Encode (prims.chachaEncrypt key ((st.entropy.drop 12).take 12)
      (utf8Encode x)), base64Encode ((st.entropy.drop 12).take 12)⟩,
    ⟨st.sessionKey, st.entropy.drop 12, st.retired⟩,
    ⟨st.sessionKey, (st.entropy.drop 12).drop 12, st.retired⟩,
    encryptSecret_active x hkey, encryptSecret_active x hkey, ?_, ?_, ?_, ?_⟩
  · intro h
    exact hdraws (base64Encode_injOn (isBytes_take hent 12)
      (isBytes_take hent2 12) h)
  · intro h
    exact hcipher (base64Encode_injOn hct1 hct2 h)
  · rw [base64_roundtrip _ (isBytes_take hent 12)]
    simp only [List.length_take]
    omega
  · rw [base64_roundtrip _ (isBytes_take hent2 12)]
    simp only [List.length_take, List.length_drop]
    omega

theorem claim7_nonce_freshness_witness :
    ((⟨some [], List.range 24, []⟩ : EncState).sessionKey = some []) ∧
    24 ≤ (⟨some [], List.range 24, []⟩ : EncState).entropy.length ∧
    isBytes (⟨some [], List.range 24, []⟩ : EncState).entropy ∧
    (List.range 24).take 12 ≠ ((List.range 24).drop 12).take 12 ∧
    (primsNoncePrefixing.chachaEncrypt [] ((List.range 24).take 12)
        (utf8Encode []) ≠
      primsNoncePrefixing.chachaEncrypt [] (((List.range 24).drop 12).take 12)
        (utf8Encode [])) ∧
    isBytes (primsNoncePrefixing.chachaEncrypt [] ((List.range 24).take 12)
      (utf8Encode [])) ∧
    isBytes (primsNoncePrefixing.chachaEncrypt []
      (((List.range 24).drop 12).take 12) (utf8Encode [])) ∧
    (∃ ef1 ef2 st2 st3,
      encryptSecret primsNoncePrefixing []
        (⟨some [], List.range 24, []⟩ : EncState) = (Except.ok ef1, st2) ∧
      encryptSecret primsNoncePrefixing [] st2 = (Except.ok ef2, st3) ∧
      ef1.nonce ≠ ef2.nonce ∧
      ef1.ciphertext ≠ ef2.ciphertext ∧
      (base64Decode ef1.nonce).length = 12 ∧
      (base64Decode ef2.nonce).length = 12) :=
  ⟨rfl, by decide, by decide, by decide, by decide, by decide, by decide,
   claim7_nonce_freshness primsNoncePrefixing [] []
     ⟨some [], List.range 24, []⟩ rfl (by decide) (by decide) (by decide)
     (by decide) (by decide) (by decide)⟩

/-- C8: key derivation is deterministic — `initEncryptionSession` with
identical `(username, masterPassword, salt)` installs the same session
key whatever the prior state — and a seal/open round-trip still returns
the plaintext when the session is re-initialized with identical inputs
between the seal and the open. -/
theorem claim8_determinism (prims : CryptoPrims) (u p s x : List Nat)
    (st stB : EncState)
    (hx : ∀ c ∈ x, validScalar c)
    (hent : isBytes st.entropy)
    (haead : ∀ key nonce msg, (initEncryptionSession prims u p s st).sessionKey
        = some key →
      prims.chachaDecrypt key nonce (prims.chachaEncrypt key nonce msg) = some msg)
    (hct : ∀ key, (initEncryptionSession prims u p s st).sessionKey = some key →
      isBytes (prims.chachaEncrypt key (st.entropy.take 12) (utf8Encode x))) :
    (initEncryptionSession prims u p s st).sessionKey =
      (initEncryptionSession prims u p s stB).sessionKey ∧
    (∃ ef st2 st3, encryptSecret prims x (initEncryptionSession prims u p s st) =
        (Except.ok ef, st2) ∧
      initEncryptionSession prims u p s st2 = st3 ∧
      decryptSecret prims ef.ciphertext ef.nonce st3 = (Except.ok x, st3)) := by
  refine ⟨rfl, ?_⟩
  set key := prims.argon2id (utf8Encode p)
    (sha256 (base64Decode s ++ [58] ++ utf8Encode (jsToLowerCase (jsTrim u))))
    with hkeydef
  have hkey1 : (initEncryptionSession prims u p s st).sessionKey = some key := rfl
  have hst1ent : (initEncryptionSession prims u p s st).entropy = st.entropy := rfl
  refine ⟨⟨base64Encode (prims.chachaEncrypt key (st.entropy.take 12)
      (utf8Encode x)), base64Encode (st.entropy.take 12)⟩, _, _,
    encryptSecret_active x hkey1, rfl, ?_⟩
  dsimp only
  have hkey3 : (initEncryptionSession prims u p s
      ⟨(initEncryptionSession prims u p s st).sessionKey,
        (initEncryptionSession prims u p s st).entropy.drop 12,
        (initEncryptionSession prims u p s st).retired⟩).sessionKey
      = some key := rfl
  have hnonce : isBytes (st.entropy.take 12) := isBytes_take hent 12
  have hdec : prims.chachaDecrypt key
      (base64Decode (base64Encode (st.entropy.take 12)))
      (base64Decode (base64Encode (prims.chachaEncrypt key (st.entropy.take 12)
        (utf8Encode x)))) = some (utf8Encode x) := by
    rw [base64_roundtrip _ hnonce, base64_roundtrip _ (hct key hkey1)]
    exact haead key _ _ hkey1
  rw [decryptSecret_of_ok hkey3 hdec, utf8DecodeLossy_encode hx]

theorem claim8_determinism_witness :
    (∀ c ∈ [104, 105], validScalar c) ∧
    isBytes (initialState [3, 1, 4]).entropy ∧
    ((initEncryptionSession primsId [97] [112] [] (initialState [3, 1, 4])).sessionKey =
      (initEncryptionSession primsId [97] [112] []
        (initialState [5, 9, 2])).sessionKey) ∧
    (∃ ef st2 st3, encryptSecret primsId [104, 105]
        (initEncryptionSession primsId [97] [112] [] (initialState [3, 1, 4])) =
        (Except.ok ef, st2) ∧
      initEncryptionSession primsId [97] [112] [] st2 = st3 ∧
      decryptSecret primsId ef.ciphertext ef.nonce st3 =
        (Except.ok [104, 105], st3)) := by
  have h := claim8_determinism primsId [97] [112] [] [104, 105]
    (initialState [3, 1, 4]) (initialState [5, 9, 2]) (by decide) (by decide)
    (fun _ _ _ _ => rfl)
    (fun key hk => (by decide : isBytes (utf8Encode [104, 105])))
  exact ⟨by decide, by decide, h.1, h.2⟩

/-- C6: `initEncryptionSession` derives identical keys for "Alice" and
"alice" (normalization), and — given that SHA-256 separates the two
binding inputs for this salt and that the KDF separates distinct salts —
different keys for "alice" and "bob" under the same salt and password. -/
theorem claim6_username_binding (prims : CryptoPrims) (p s : List Nat)
    (st1 st2 st3 : EncState)
    (hsha : sha256 (base64Decode s ++ [58] ++
        utf8Encode [97, 108, 105, 99, 101]) ≠
      sha256 (base64Decode s ++ [58] ++ utf8Encode [98, 111, 98]))
    (hkdf : ∀ s1 s2, s1 ≠ s2 →
      prims.argon2id (utf8Encode p) s1 ≠ prims.argon2id (utf8Encode p) s2) :
    (initEncryptionSession prims [65, 108, 105, 99, 101] p s st1).sessionKey =
      (initEncryptionSession prims [97, 108, 105, 99, 101] p s st2).sessionKey ∧
    (initEncryptionSession prims [97, 108, 105, 99, 101] p s st1).sessionKey ≠
      (initEncryptionSession prims [98, 111, 98] p s st3).sessionKey := by
  refine ⟨rfl, ?_⟩
  intro h
  exact hkdf _ _ hsha (Option.some.inj h)

set_option maxRecDepth 8000 in
theorem claim6_username_binding_witness :
    (sha256 (base64Decode [] ++ [58] ++
        utf8Encode [97, 108, 105, 99, 101]) ≠
      sha256 (base64Decode [] ++ [58] ++ utf8Encode [98, 111, 98])) ∧
    ((initEncryptionSession primsId [65, 108, 105, 99, 101] [112] []
        (initialState [])).sessionKey =
      (initEncryptionSession primsId [97, 108, 105, 99, 101] [112] []
        (initialState [])).sessionKey) ∧
    ((initEncryptionSession primsId [97, 108, 105, 99, 101] [112] []
        (initialState [])).sessionKey ≠
      (initEncryptionSession primsId [98, 111, 98] [112] []
        (initialState [])).sessionKey) := by
  have h := claim6_username_binding primsId [112] []
    (initialState []) (initialState []) (initialState [])
    (by decide) (fun _ _ hne => hne)
  exact ⟨by decide, h.1, h.2⟩

set_option maxRecDepth 8000 in
/-- C2 as stated is false on the code: `initializeEncryptionSession`
hashes `saltBytes ++ ":" ++ normalizedUsername` (line 31 inserts
`Buffer.from(":")`), not the bare concatenation of salt and username the
claim describes, and the two pipelines derive different keys already for
username "a" with an empty salt. -/
theorem claim2_counterexample :
    initEncryptionSession primsId [97] [] [] (initialState []) ≠
      initSessionClaimC2 primsId [97] [] [] (initialState []) := by
  decide

/-- C2 amended: the binding value is SHA-256 of the salt bytes, a single
ASCII colon separator byte (0x3A), and the normalized (trimmed,
lowercased) username bytes; the session key is Argon2id of the password
bytes with that binding value as salt, and is 32 bytes long whenever the
KDF honors its `dkLen = 32` contract on 32-byte salts. -/
theorem claim2_amended (prims : CryptoPrims) (u p s : List Nat)
    (st : EncState)
    (hkdf : ∀ pw salt, salt.length = 32 → (prims.argon2id pw salt).length = 32) :
    (initEncryptionSession prims u p s st).sessionKey =
      some (prims.argon2id (utf8Encode p)
        (sha256 (base64Decode s ++ [58] ++
          utf8Encode (jsToLowerCase (jsTrim u))))) ∧
    ∀ k, (initEncryptionSession prims u p s st).sessionKey = some k →
      k.length = 32 := by
  refine ⟨rfl, ?_⟩
  intro k hk
  have hk2 : prims.argon2id (utf8Encode p)
      (sha256 (base64Decode s ++ [58] ++
        utf8Encode (jsToLowerCase (jsTrim u)))) = k := Option.some.inj hk
  rw [← hk2]
  exact hkdf _ _ (sha256_length _)

theorem claim2_amended_witness :
    (∀ pw salt, salt.length = 32 → (primsId.argon2id pw salt).length = 32) ∧
    ((initEncryptionSession primsId [32, 66, 111, 98] [112, 119] []
        (initialState [])).sessionKey =
      some (primsId.argon2id (utf8Encode [112, 119])
        (sha256 (base64Decode [] ++ [58] ++
          utf8Encode (jsToLowerCase (jsTrim [32, 66, 111, 98])))))) ∧
    (∀ k, (initEncryptionSession primsId [32, 66, 111, 98] [112, 119] []
        (initialState [])).sessionKey = some k → k.length = 32) :=
  ⟨fun _ _ h => h,
   (claim2_amended primsId [32, 66, 111, 98] [112, 119] [] (initialState [])
     (fun _ _ h => h)).1,
   (claim2_amended primsId [32, 66, 111, 98] [112, 119] [] (initialState [])
     (fun _ _ h => h)).2⟩

set_option maxRecDepth 8000 in
/-- C3 as stated is false on the code: `initializeEncryptionSession`
contains no validation — called with every argument empty it still
derives and installs a session key instead of failing. -/
theorem claim3_counterexample :
    isEncryptionReady (initEncryptionSession primsId [] [] []
      (initialState [])) = true := by
  decide

/-- C3 amended: `initializeEncryptionSession` performs no input
validation and has no failure path: for all inputs — empty username,
empty password, and empty salt included — it installs a derived session
key.  (No `InvalidInput` error kind exists in the code; the Argon2id
salt is always the 32-byte SHA-256 output, so a wrong-length salt can
never reach the KDF.) -/
theorem claim3_amended (prims : CryptoPrims) (u p s : List Nat)
    (st : EncState) :
    isEncryptionReady (initEncryptionSession prims u p s st) = true ∧
    (initEncryptionSession prims u p s st).sessionKey ≠ none := by
  constructor <;> simp [isEncryptionReady, initEncryptionSession]

set_option maxRecDepth 8000 in
/-- C9 as stated is false on the code: re-initializing over an active
session assigns the new key without touching the old buffer — the
retired buffer still holds the original key bytes, not zeros. -/
theorem claim9_counterexample :
    (initEncryptionSession primsId [97] [99] []
        (initEncryptionSession primsId [97] [98] [] (initialState []))).retired =
      [sha256 [58, 97]] ∧
    sha256 [58, 97] ≠ List.replicate 32 0 := by
  decide

/-- C9 amended: when a key is held, re-initialization overwrites the
reference and retires the old buffer with its bytes unchanged (no
zeroing); only `clearEncryptionSession` zeroes the buffer before
dropping it. -/
theorem claim9_amended (prims : CryptoPrims) (u p s : List Nat)
    (st : EncState) (k : List Nat) (hk : st.sessionKey = some k) :
    (initEncryptionSession prims u p s st).retired = k :: st.retired ∧
    (clearEncryptionSession st).retired =
      List.replicate k.length 0 :: st.retired := by
  constructor
  · simp [initEncryptionSession, hk]
  · simp [clearEncryptionSession, hk]

theorem claim9_amended_witness :
    ((⟨some [5], [], []⟩ : EncState).sessionKey = some [5]) ∧
    (initEncryptionSession primsId [] [] [] ⟨some [5], [], []⟩).retired =
      [[5]] ∧
    (clearEncryptionSession (⟨some [5], [], []⟩ : EncState)).retired = [[0]] :=
  ⟨rfl,
   (claim9_amended primsId [] [] [] ⟨some [5], [], []⟩ [5] rfl).1,
   (claim9_amended primsId [] [] [] ⟨some [5], [], []⟩ [5] rfl).2⟩

end EncryptionService
